import Mathlib

/-!
Shallow embedding of the hippodb persistence and indexing layer
(src/hippodb/hippo.py, plus the database-listing endpoint of
src/hippodb/api.py), together with proofs settling the spec claims.

Modelling conventions:
* Python `dict`s become association lists `List (k × a)` with Python's
  insertion-order semantics: assignment (`aset`) updates the first binding
  with that key in place, otherwise appends at the end; deletion (`aerase`)
  removes the first binding with that key; iteration follows list order.
* `uuid4()` becomes a deterministic injective generator `genId` driven by a
  `nextId` counter carried in the state; injectivity mirrors the uniqueness
  of uuids.  The counter only advances when the generated id is stored.
* The file system is modelled flat: the four kinds of on-disk artefacts
  (applications.json, the per-application map.json, the per-database
  map.json, and the raw content files) are four finite maps keyed by the
  path components.  Directory creation (`mkdir`) is implicit; side-car file
  contents are stored already parsed, so the fatal-on-malformed-JSON branch
  of the load protocol has no counterpart here.
* A raised Python KeyError or FileNotFoundError is modelled by
  `Err.keyError` or `Err.fileNotFound`; every operation returns the outcome
  paired with the state as of the moment the exception escaped, so
  mutations performed before a raise are kept, as in Python.
-/

namespace Hippo

/-- Python dict lookup `d[k]` (first binding wins; dicts never hold
duplicate keys, and association lists built by `aset` do not either). -/
def alookup {κ α : Type} [DecidableEq κ] (k : κ) : List (κ × α) → Option α
  | [] => none
  | (k', v) :: t => if k' = k then some v else alookup k t

/-- Python dict lookup where the source guarantees the key is present (for
example right after a `setdefault`); falls back to the given default. -/
def agetD {κ α : Type} [DecidableEq κ] (k : κ) (l : List (κ × α)) (d : α) : α :=
  (alookup k l).getD d

/-- Python dict assignment `d[k] = v`: update the existing binding in place
(keeping its position) or append a new one at the end. -/
def aset {κ α : Type} [DecidableEq κ] (k : κ) (v : α) : List (κ × α) → List (κ × α)
  | [] => [(k, v)]
  | (k', v') :: t => if k' = k then (k', v) :: t else (k', v') :: aset k v t

/-- Python dict deletion `del d[k]`: remove the first binding with key `k`
(a dict holds at most one). -/
def aerase {κ α : Type} [DecidableEq κ] (k : κ) : List (κ × α) → List (κ × α)
  | [] => []
  | (k', v') :: t => if k' = k then t else (k', v') :: aerase k t

/-- Python `d.setdefault(k, v)`: insert `(k, v)` only when `k` is absent. -/
def setdefaultA {κ α : Type} [DecidableEq κ] (k : κ) (v : α) (l : List (κ × α)) :
    List (κ × α) :=
  match alookup k l with
  | some _ => l
  | none => aset k v l

theorem alookup_aset_self {κ α : Type} [DecidableEq κ] (k : κ) (v : α) (l : List (κ × α)) :
    alookup k (aset k v l) = some v := by
  induction l with
  | nil => simp [aset, alookup]
  | cons hd t ih =>
    obtain ⟨k', v'⟩ := hd
    by_cases h : k' = k
    · simp [aset, alookup, h]
    · simp [aset, alookup, h, ih]

theorem alookup_aset_ne {κ α : Type} [DecidableEq κ] {a k : κ} (h : a ≠ k) (v : α)
    (l : List (κ × α)) : alookup a (aset k v l) = alookup a l := by
  have hka : ¬k = a := fun hh => h hh.symm
  induction l with
  | nil => simp [aset, alookup, hka]
  | cons hd t ih =>
    obtain ⟨k', v'⟩ := hd
    by_cases hk : k' = k
    · subst hk
      simp [aset, alookup, hka]
    · simp [aset, alookup, hk, ih]

theorem aset_absent {κ α : Type} [DecidableEq κ] {k : κ} {l : List (κ × α)}
    (h : alookup k l = none) (v : α) : aset k v l = l ++ [(k, v)] := by
  induction l with
  | nil => simp [aset]
  | cons hd t ih =>
    obtain ⟨k', v'⟩ := hd
    by_cases hk : k' = k
    · simp [alookup, hk] at h
    · simp [alookup, hk] at h
      simp [aset, hk, ih h]

theorem alookup_append_none {κ α : Type} [DecidableEq κ] {k : κ} {l₁ : List (κ × α)}
    (h : alookup k l₁ = none) (l₂ : List (κ × α)) :
    alookup k (l₁ ++ l₂) = alookup k l₂ := by
  induction l₁ with
  | nil => simp
  | cons hd t ih =>
    obtain ⟨k', v'⟩ := hd
    by_cases hk : k' = k
    · simp [alookup, hk] at h
    · simp [alookup, hk] at h ⊢
      exact ih h

theorem alookup_append_some {κ α : Type} [DecidableEq κ] {k : κ} {v : α} {l₁ : List (κ × α)}
    (h : alookup k l₁ = some v) (l₂ : List (κ × α)) :
    alookup k (l₁ ++ l₂) = some v := by
  induction l₁ with
  | nil => simp [alookup] at h
  | cons hd t ih =>
    obtain ⟨k', v'⟩ := hd
    by_cases hk : k' = k
    · simp [alookup, hk] at h ⊢
      exact h
    · simp [alookup, hk] at h ⊢
      exact ih h

theorem alookup_eq_none_of_forall {κ α : Type} [DecidableEq κ] {k : κ} {l : List (κ × α)}
    (h : ∀ x ∈ l, x.1 ≠ k) : alookup k l = none := by
  induction l with
  | nil => rfl
  | cons hd t ih =>
    obtain ⟨k', v'⟩ := hd
    have hhd : k' ≠ k := h (k', v') (by simp)
    simp only [alookup, hhd, if_false]
    exact ih fun x hx => h x (by simp [hx])

theorem forall_ne_of_alookup_eq_none {κ α : Type} [DecidableEq κ] {k : κ} {l : List (κ × α)}
    (h : alookup k l = none) : ∀ x ∈ l, x.1 ≠ k := by
  induction l with
  | nil => simp
  | cons hd t ih =>
    obtain ⟨k', v'⟩ := hd
    by_cases hk : k' = k
    · simp [alookup, hk] at h
    · simp [alookup, hk] at h
      intro x hx
      rcases List.mem_cons.1 hx with hx | hx
      · simpa [hx] using hk
      · exact ih h x hx

theorem aset_append_self {κ α : Type} [DecidableEq κ] {k : κ} {l : List (κ × α)}
    (h : alookup k l = none) (v w : α) :
    aset k v (l ++ [(k, w)]) = l ++ [(k, v)] := by
  induction l with
  | nil => simp [aset]
  | cons hd t ih =>
    obtain ⟨k', v'⟩ := hd
    by_cases hk : k' = k
    · simp [alookup, hk] at h
    · simp [alookup, hk] at h
      simp [aset, hk, ih h]

theorem mem_of_alookup_eq_some {κ α : Type} [DecidableEq κ] {k : κ} {v : α}
    {l : List (κ × α)} (h : alookup k l = some v) : (k, v) ∈ l := by
  induction l with
  | nil => simp [alookup] at h
  | cons hd t ih =>
    obtain ⟨k', v'⟩ := hd
    by_cases hk : k' = k
    · simp [alookup, hk] at h
      simp [hk, h]
    · simp [alookup, hk] at h
      simp [ih h]

theorem mem_aset {κ α : Type} [DecidableEq κ] {x : κ × α} {k : κ} {v : α}
    {l : List (κ × α)} (h : x ∈ aset k v l) : x = (k, v) ∨ x ∈ l := by
  induction l with
  | nil => simpa [aset] using h
  | cons hd t ih =>
    obtain ⟨k', v'⟩ := hd
    by_cases hk : k' = k
    · simp [aset, hk] at h
      rcases h with h | h
      · subst hk
        simp [h]
      · simp [h]
    · simp [aset, hk] at h
      rcases h with h | h
      · simp [h]
      · rcases ih h with h' | h'
        · exact Or.inl h'
        · exact Or.inr (by simp [h'])

theorem mem_aerase {κ α : Type} [DecidableEq κ] {x : κ × α} {k : κ}
    {l : List (κ × α)} (h : x ∈ aerase k l) : x ∈ l := by
  induction l with
  | nil => simp [aerase] at h
  | cons hd t ih =>
    obtain ⟨k', v'⟩ := hd
    by_cases hk : k' = k
    · simp [aerase, hk] at h
      simp [h]
    · simp [aerase, hk] at h
      rcases h with h | h
      · simp [h]
      · simp [ih h]

theorem aerase_of_absent {κ α : Type} [DecidableEq κ] {k : κ} {l : List (κ × α)}
    (h : alookup k l = none) : aerase k l = l := by
  induction l with
  | nil => rfl
  | cons hd t ih =>
    obtain ⟨k', v'⟩ := hd
    by_cases hk : k' = k
    · simp [alookup, hk] at h
    · simp [alookup, hk] at h
      simp [aerase, hk, ih h]

theorem alookup_aerase_ne {κ α : Type} [DecidableEq κ] {a k : κ} (h : a ≠ k)
    (l : List (κ × α)) : alookup a (aerase k l) = alookup a l := by
  induction l with
  | nil => rfl
  | cons hd t ih =>
    obtain ⟨k', v'⟩ := hd
    by_cases hk : k' = k
    · subst hk
      have : ¬k' = a := fun hh => h hh.symm
      simp [aerase, alookup, this]
    · simp [aerase, alookup, hk, ih]

/-- Erasing a key from a list with pairwise-distinct keys is the same as
filtering that key out. -/
theorem aerase_eq_filter {κ α : Type} [DecidableEq κ] {l : List (κ × α)}
    (h : (l.map Prod.fst).Nodup) (k : κ) :
    aerase k l = l.filter (fun kv => !(decide (kv.1 = k))) := by
  induction l with
  | nil => rfl
  | cons hd t ih =>
    obtain ⟨k', v'⟩ := hd
    simp only [List.map_cons, List.nodup_cons] at h
    by_cases hk : k' = k
    · have hne : ∀ x ∈ t, x.1 ≠ k := by
        intro x hx hxk
        exact h.1 (by
          rw [hk, ← hxk]
          exact List.mem_map_of_mem Prod.fst hx)
      have hfilt : t.filter (fun kv => !(decide (kv.1 = k))) = t := by
        apply List.filter_eq_self.2
        intro x hx
        simpa using hne x hx
      simp [aerase, hk, hfilt]
    · simp [aerase, List.filter_cons, hk, ih h.2]

/-! ## Entity model (hippo.py lines 12-37) -/

/-- hippo.py lines 12-16: `Database` dataclass. -/
structure Database where
  id : String
  application : String
  path : String
deriving Repr, DecidableEq

/-- hippo.py lines 19-22: `Application` dataclass. -/
structure Application where
  id : String
  name : String
deriving Repr, DecidableEq

/-- hippo.py lines 25-29: `Token` dataclass. -/
structure Token where
  id : String
  application : String
  writeable : Bool
deriving Repr, DecidableEq

/-- On-disk layout, modelled flat (spec section 6):
`applications.json`, `db/<app>/map.json` (stored keyed by database id, as
written by `save_db_map`), `db/<app>/<dbId>/map.json`, and the raw content
files `db/<app>/<dbId>/<docId>`.  `none` means the file does not exist. -/
structure Disk where
  applicationsFile : Option (List Application × List Token)
  dbMapFiles : List (String × List (String × Database))
  docMapFiles : List ((String × String) × List (String × String))
  contentFiles : List ((String × String × String) × String)
deriving Repr, DecidableEq

/-- hippo.py lines 40-48: the in-memory index of `HippoDB` plus the disk it
writes through to.  `nextId` drives the uuid generator `genId`. -/
structure HippoState where
  applications : List (String × Application)
  tokens : List (String × Token)
  databases : List (String × List (String × Database))
  documents : List (String × List (String × List (String × String)))
  disk : Disk
  nextId : Nat
deriving Repr, DecidableEq

/-- Deterministic stand-in for `str(uuid4())`: the id generated at counter
value `n`.  Injective, never empty, and never contains a slash. -/
def genId (n : Nat) : String :=
  String.mk (List.replicate (n + 1) 'u')

theorem genId_inj : Function.Injective genId := by
  intro m n h
  have hlen : (genId m).length = (genId n).length := by rw [h]
  simpa [genId, String.length] using hlen

/-- Failure kinds: a Python `KeyError` (a name or id is absent from a map —
the NotFound of the spec) and a `FileNotFoundError` (a content file is
missing despite being indexed). -/
inductive Err where
  | keyError
  | fileNotFound
deriving Repr, DecidableEq

deriving instance DecidableEq for Except

/-! ## Persistence helpers (hippo.py lines 245-285)

Each `save_*` serializes the entire in-memory state for its scope and
overwrites the target file.  `save_db_map` and `save_document_map` read
`self.databases[application]` / `self.documents[application][database]`
and hence raise `KeyError` when the scope is absent; they perform no
mutation before that point, so they return `Except Err HippoState`. -/

/-- hippo.py lines 245-260: `save_applications_file`. -/
def save_applications_file (s : HippoState) : HippoState :=
  let d := { s.disk with applicationsFile := some (s.applications.map Prod.snd, s.tokens.map Prod.snd) }
  { s with disk := d }

/-- hippo.py lines 262-275: `save_db_map` writes `db/<app>/map.json` as an
object keyed by database id over `self.databases[application].values()`. -/
def save_db_map (s : HippoState) (application : String) : Except Err HippoState :=
  match alookup application s.databases with
  | none => .error .keyError
  | some dbmap =>
    let fileContent := dbmap.foldl (fun acc kv => aset kv.2.id kv.2 acc) []
    let d := { s.disk with dbMapFiles := aset application fileContent s.disk.dbMapFiles }
    .ok { s with disk := d }

/-- hippo.py lines 277-285: `save_document_map` writes
`db/<app>/<db>/map.json` as the name-to-id object itself. -/
def save_document_map (s : HippoState) (application database : String) :
    Except Err HippoState :=
  match alookup application s.documents with
  | none => .error .keyError
  | some docmaps =>
    match alookup database docmaps with
    | none => .error .keyError
    | some docmap =>
      let d := { s.disk with docMapFiles := aset (application, database) docmap s.disk.docMapFiles }
      .ok { s with disk := d }

/-- `pathlib.Path.write_text` on `db/<app>/<db>/<docId>` (hippo.py lines
90-92): create or overwrite the content file. -/
def writeContent (s : HippoState) (application database document_id contents : String) :
    HippoState :=
  let d := { s.disk with contentFiles := aset (application, database, document_id) contents s.disk.contentFiles }
  { s with disk := d }

/-- `shutil.rmtree` of `db/<app>/<db>` (hippo.py line 119): drop that
database's map file and all its content files. -/
def rmtreeDb (s : HippoState) (application database : String) : HippoState :=
  let newDocMaps := s.disk.docMapFiles.filter (fun kv => !(kv.1.1 == application && kv.1.2 == database))
  let newContents := s.disk.contentFiles.filter (fun kv => !(kv.1.1 == application && kv.1.2.1 == database))
  let d := { s.disk with docMapFiles := newDocMaps, contentFiles := newContents }
  { s with disk := d }

/-- `shutil.rmtree` of `db/<app>` (hippo.py line 137): drop the
application's whole on-disk subtree. -/
def rmtreeApp (s : HippoState) (application : String) : HippoState :=
  let newDbMaps := s.disk.dbMapFiles.filter (fun kv => !(kv.1 == application))
  let newDocMaps := s.disk.docMapFiles.filter (fun kv => !(kv.1.1 == application))
  let newContents := s.disk.contentFiles.filter (fun kv => !(kv.1.1 == application))
  let d := { s.disk with dbMapFiles := newDbMaps, docMapFiles := newDocMaps, contentFiles := newContents }
  { s with disk := d }

/-! ## Store operations (hippo.py lines 50-142)

Every operation returns `Except Err result × HippoState`; the state
component is the object's state when the call returned or when the Python
exception escaped, so mutations made before a raise are preserved. -/

/-- hippo.py lines 50-56: `create_token`.  Generates a fresh id, registers
the token, persists the applications file, returns `self.tokens[token_id]`.
No validation that the application exists. -/
def create_token (s : HippoState) (application : String) (writeable : Bool) :
    Except Err Token × HippoState :=
  let token_id := genId s.nextId
  let s := { s with nextId := s.nextId + 1,
                    tokens := aset token_id ⟨token_id, application, writeable⟩ s.tokens }
  let s := save_applications_file s
  match alookup token_id s.tokens with
  | none => (.error .keyError, s)
  | some t => (.ok t, s)

/-- hippo.py lines 69-77: `create_database`.  Generates a fresh id, registers
`path -> Database` and an empty document map, persists the per-application
database map and the empty per-database document map, and returns
`self.databases[application][path]`. -/
def create_database (s : HippoState) (application path : String) :
    Except Err Database × HippoState :=
  match alookup application s.databases with
  | none => (.error .keyError, s)
  | some dbmap =>
    let db_id := genId s.nextId
    let db : Database := ⟨db_id, application, path⟩
    let s := { s with nextId := s.nextId + 1,
                      databases := aset application (aset path db dbmap) s.databases }
    match alookup application s.documents with
    | none => (.error .keyError, s)
    | some docmaps =>
      let s := { s with documents := aset application (aset db_id [] docmaps) s.documents }
      match save_db_map s application with
      | .error e => (.error e, s)
      | .ok s =>
        match save_document_map s application db_id with
        | .error e => (.error e, s)
        | .ok s =>
          match alookup application s.databases with
          | none => (.error .keyError, s)
          | some dbmap2 =>
            match alookup path dbmap2 with
            | none => (.error .keyError, s)
            | some db2 => (.ok db2, s)

/-- hippo.py lines 58-67: `create_application`.  Generates a fresh id,
registers the application with empty database/document scopes, persists the
applications file, creates the root database `/`, and returns
`self.applications[app_id]`. -/
def create_application (s : HippoState) (name : String) :
    Except Err Application × HippoState :=
  let app_id := genId s.nextId
  let app : Application := ⟨app_id, name⟩
  let s := { s with nextId := s.nextId + 1,
                    applications := aset app_id app s.applications,
                    databases := aset app_id [] s.databases,
                    documents := aset app_id [] s.documents }
  let s := save_applications_file s
  match create_database s app_id "/" with
  | (.error e, s) => (.error e, s)
  | (.ok _, s) =>
    match alookup app_id s.applications with
    | none => (.error .keyError, s)
    | some a => (.ok a, s)

/-- hippo.py lines 79-92: `update_document`.  When the name is new, generate
a document id, register it and persist the document map; in both cases write
the contents to the content file under the resolved id. -/
def update_document (s : HippoState) (application database document_name contents : String) :
    Except Err Unit × HippoState :=
  match alookup application s.documents with
  | none => (.error .keyError, s)
  | some docmaps =>
    match alookup database docmaps with
    | none => (.error .keyError, s)
    | some docmap =>
      match alookup document_name docmap with
      | none =>
        let document_id := genId s.nextId
        let s := { s with nextId := s.nextId + 1,
                          documents := aset application
                            (aset database (aset document_name document_id docmap) docmaps)
                            s.documents }
        match save_document_map s application database with
        | .error e => (.error e, s)
        | .ok s => (.ok (), writeContent s application database document_id contents)
      | some document_id => (.ok (), writeContent s application database document_id contents)

/-- hippo.py lines 94-99: `read_document`.  Resolve the name through the
document map and read the content file; never mutates the store. -/
def read_document (s : HippoState) (application database document_name : String) :
    Except Err String × HippoState :=
  match alookup application s.documents with
  | none => (.error .keyError, s)
  | some docmaps =>
    match alookup database docmaps with
    | none => (.error .keyError, s)
    | some docmap =>
      match alookup document_name docmap with
      | none => (.error .keyError, s)
      | some document_id =>
        match alookup (application, database, document_id) s.disk.contentFiles with
        | none => (.error .fileNotFound, s)
        | some contents => (.ok contents, s)

/-- hippo.py lines 101-113: `delete_document`.  Resolves the id, reads the
content file, unlinks it, calls `save_document_map`, and returns the content
read.  Note the source never removes `document_name` from
`self.documents[application][database]`. -/
def delete_document (s : HippoState) (application database document_name : String) :
    Except Err String × HippoState :=
  match alookup application s.documents with
  | none => (.error .keyError, s)
  | some docmaps =>
    match alookup database docmaps with
    | none => (.error .keyError, s)
    | some docmap =>
      match alookup document_name docmap with
      | none => (.error .keyError, s)
      | some document_id =>
        match alookup (application, database, document_id) s.disk.contentFiles with
        | none => (.error .fileNotFound, s)
        | some contents =>
          let d := { s.disk with contentFiles := aerase (application, database, document_id) s.disk.contentFiles }
          let s := { s with disk := d }
          match save_document_map s application database with
          | .error e => (.error e, s)
          | .ok s => (.ok contents, s)

/-- hippo.py lines 115-121: `delete_database`.  Note the source performs
`del self.databases[application][database]` on the path-keyed map and
`del self.documents[application][database]` on the id-keyed map with the
same argument. -/
def delete_database (s : HippoState) (application database : String) :
    Except Err Unit × HippoState :=
  match alookup application s.databases with
  | none => (.error .keyError, s)
  | some dbmap =>
    match alookup database dbmap with
    | none => (.error .keyError, s)
    | some _ =>
      let s := { s with databases := aset application (aerase database dbmap) s.databases }
      match alookup application s.documents with
      | none => (.error .keyError, s)
      | some docmaps =>
        match alookup database docmaps with
        | none => (.error .keyError, s)
        | some _ =>
          let s := { s with documents := aset application (aerase database docmaps) s.documents }
          let s := rmtreeDb s application database
          match save_db_map s application with
          | .error e => (.error e, s)
          | .ok s => (.ok (), s)

/-- hippo.py lines 123-138: `delete_application`.  Deletes the three
in-memory scopes, every token referencing the application, the on-disk
subtree, and persists the applications file. -/
def delete_application (s : HippoState) (application : String) :
    Except Err Unit × HippoState :=
  match alookup application s.databases with
  | none => (.error .keyError, s)
  | some _ =>
    let s := { s with databases := aerase application s.databases }
    match alookup application s.documents with
    | none => (.error .keyError, s)
    | some _ =>
      let s := { s with documents := aerase application s.documents }
      match alookup application s.applications with
      | none => (.error .keyError, s)
      | some _ =>
        let s := { s with applications := aerase application s.applications }
        let tokenIds := (s.tokens.filter (fun kv => kv.2.application == application)).map Prod.fst
        let s := { s with tokens := tokenIds.foldl (fun m tid => aerase tid m) s.tokens }
        let s := rmtreeApp s application
        (.ok (), save_applications_file s)

/-- hippo.py lines 140-142: `delete_token`. -/
def delete_token (s : HippoState) (token : String) : Except Err Unit × HippoState :=
  match alookup token s.tokens with
  | none => (.error .keyError, s)
  | some _ => (.ok (), save_applications_file { s with tokens := aerase token s.tokens })

/-! ## Load protocol (hippo.py lines 144-231)

Loading replays the side-car files: the applications file first, then per
application the database map, then per database the document map.  When a
file is absent the loader writes the current (empty) state for that scope
and continues. -/

/-- hippo.py lines 163-190: `load_applications_file`.  On a missing file,
saves the current applications/tokens; otherwise rebuilds both dicts as
`dict((value.id, value) for value in ...)`. -/
def load_applications_file (s : HippoState) : HippoState :=
  match s.disk.applicationsFile with
  | none => save_applications_file s
  | some (apps, toks) =>
    { s with applications := apps.foldl (fun m a => aset a.id a m) [],
             tokens := toks.foldl (fun m t => aset t.id t m) [] }

/-- hippo.py lines 192-212: `load_db_map`.  Ensures the two per-application
scopes exist, then either saves the current (empty) map or inserts every
database from the file keyed by its `path` field. -/
def load_db_map (s : HippoState) (application : String) : HippoState :=
  let s := { s with databases := setdefaultA application [] s.databases,
                    documents := setdefaultA application [] s.documents }
  match alookup application s.disk.dbMapFiles with
  | none =>
    match save_db_map s application with
    | .ok s' => s'
    | .error _ => s
  | some fileMap =>
    let merged := (fileMap.map Prod.snd).foldl (fun m db => aset db.path db m)
      (agetD application s.databases [])
    { s with databases := aset application merged s.databases }

/-- hippo.py lines 214-231: `load_document_map`. -/
def load_document_map (s : HippoState) (application database : String) : HippoState :=
  let s := { s with documents := setdefaultA application [] s.documents }
  match alookup (application, database) s.disk.docMapFiles with
  | none =>
    let inner := aset database [] (agetD application s.documents [])
    let s := { s with documents := aset application inner s.documents }
    match save_document_map s application database with
    | .ok s' => s'
    | .error _ => s
  | some m =>
    let inner := aset database m (agetD application s.documents [])
    { s with documents := aset application inner s.documents }

/-- One iteration of the outer loop of `load` (hippo.py lines 147-151):
load the application's database map, then every document map of the
databases now present for it. -/
def loadApp (s : HippoState) (application : String) : HippoState :=
  let s := load_db_map s application
  ((agetD application s.databases []).map Prod.snd).foldl
    (fun s' db => load_document_map s' application db.id) s

/-- hippo.py lines 144-161: `load` (the diagnostic `pprint` has no effect
on the store and is omitted). -/
def load (s : HippoState) : HippoState :=
  let s := load_applications_file s
  (s.applications.map Prod.fst).foldl loadApp s

/-- A freshly constructed `HippoDB` over the given disk (hippo.py lines
41-48): empty in-memory index, counter at zero, then `load`. -/
def freshLoad (d : Disk) : HippoState :=
  load { applications := [], tokens := [], databases := [], documents := [],
         disk := d, nextId := 0 }

/-- The store obtained by starting `HippoDB` on a completely empty
directory. -/
def initState : HippoState :=
  freshLoad { applicationsFile := none, dbMapFiles := [], docMapFiles := [], contentFiles := [] }

/-! ## The database-listing endpoint (api.py lines 140-174)

URL decoding (`unquote`) is transport glue outside the core (spec section
6) and is not modelled; its argument here is the already-decoded name.
String primitives are modelled on the character lists underlying `String`,
matching Python's character-wise `startswith`, slicing and `count`. -/

/-- Python `str.startswith`: character-wise prefix test. -/
def isPrefixStr (pre str : String) : Bool :=
  List.isPrefixOf pre.data str.data

/-- Python `s[n:]`: drop the first `n` characters. -/
def strDrop (str : String) (n : Nat) : String :=
  String.mk (str.data.drop n)

/-- Python `s.count("/")`: occurrences of the slash character. -/
def countSlash (str : String) : Nat :=
  str.data.count '/'

/-- api.py lines 140-146: `process_db_name` (without the `unquote`). -/
def processDbName (name : String) : String :=
  if isPrefixStr "/" name then name else "/" ++ name

/-- api.py lines 154-174: `list_databases`.  Filters the application's
databases to paths extending the (normalized) prefix; without `recursive`,
keeps only paths with no further slash past the prefix.  Returns the paths
(the `DatabaseInfo` payloads). -/
def list_databases (s : HippoState) (appId dbName : String) (recursive : Bool) :
    Except Err (List String) :=
  match alookup appId s.databases with
  | none => .error .keyError
  | some dbmap =>
    let dbName := processDbName dbName
    let dbs := (dbmap.map (fun kv => kv.2.path)).filter (fun p => isPrefixStr dbName p)
    if recursive then .ok dbs
    else .ok (dbs.filter (fun p => countSlash (strDrop p dbName.length) == 0))

/-! ## Concrete scenario states used by witnesses and counterexamples.

Ids are generated in order: the application gets `genId 0 = "u"`, its root
database `genId 1 = "uu"`, and further creations continue from there. -/

/-- A store holding one application (id `"u"`) with just its root database
(id `"uu"`, path `"/"`). -/
def exampleApp : HippoState :=
  (create_application initState "example").2

/-- `exampleApp` after writing document `"doc"` with contents `"hello"`
(document id `genId 2 = "uuu"`). -/
def exampleDoc : HippoState :=
  (update_document exampleApp "u" "uu" "doc" "hello").2

/-- `exampleApp` after creating databases at paths `/a`, `/a/b` and
`/a/b/c` (the configuration of the listing claim). -/
def exampleTree : HippoState :=
  (create_database (create_database (create_database exampleApp "u" "/a").2 "u" "/a/b").2 "u" "/a/b/c").2

/-- `exampleApp` plus one token (id `"uuu"`) referencing application
`"u"`. -/
def exampleTok : HippoState :=
  (create_token exampleApp "u" true).2


/-! ## Claim C1 — delete_document (code bug) -/

/-- C1: evaluating `delete_document` at a store holding document `"doc"`
(contents `"hello"`, id `"uuu"`) shows the call returns the prior contents
and deletes the content file, but leaves `"doc"` in both the in-memory and
the persisted document map, and the next read of `"doc"` hits a missing
content file. -/
theorem delete_document_keeps_map_entry :
    exampleDoc.documents = [("u", [("uu", [("doc", "uuu")])])] ∧
    (delete_document exampleDoc "u" "uu" "doc").1 = .ok "hello" ∧
    (delete_document exampleDoc "u" "uu" "doc").2.documents
      = [("u", [("uu", [("doc", "uuu")])])] ∧
    alookup ("u", "uu") (delete_document exampleDoc "u" "uu" "doc").2.disk.docMapFiles
      = some [("doc", "uuu")] ∧
    (delete_document exampleDoc "u" "uu" "doc").2.disk.contentFiles = [] ∧
    (read_document (delete_document exampleDoc "u" "uu" "doc").2 "u" "uu" "doc").1
      = .error .fileNotFound :=
  ⟨by decide, by decide, by decide, by decide, by decide, by decide⟩

/-! ## Claim C2 — delete_database (code bug) -/

/-- C2: evaluating `delete_database` at a store holding application `"u"`
whose root database has id `"uu"` and path `"/"`: the call with the
database id raises KeyError (the in-memory database map is keyed by path)
and removes nothing. -/
theorem delete_database_by_id_key_errors :
    alookup "/" (agetD "u" exampleApp.databases []) = some ⟨"uu", "u", "/"⟩ ∧
    delete_database exampleApp "u" "uu" = (.error .keyError, exampleApp) := by
  decide

/-! ## Claim C3 — non-recursive database listing (corrected) -/

/-- C3 counterexample: with databases at `/a`, `/a/b` and `/a/b/c` (besides
the root), listing with prefix `/a` and `recursive = false` returns only
`/a`; contrary to the claim, `/a/b` is not in the result. -/
theorem list_databases_slash_a_counterexample :
    alookup "/a" (agetD "u" exampleTree.databases []) = some ⟨"uuu", "u", "/a"⟩ ∧
    alookup "/a/b" (agetD "u" exampleTree.databases []) = some ⟨"uuuu", "u", "/a/b"⟩ ∧
    alookup "/a/b/c" (agetD "u" exampleTree.databases []) = some ⟨"uuuuu", "u", "/a/b/c"⟩ ∧
    list_databases exampleTree "u" "/a" false = .ok ["/a"] ∧
    "/a/b" ∉ (["/a"] : List String) := by
  decide

/-- C3 (amended): the non-recursive listing returns exactly the databases
whose path starts with the normalized prefix and whose remainder beyond the
prefix contains no further slash (so for prefix `/a` it returns `/a` itself
but neither `/a/b` nor `/a/b/c`). -/
theorem list_databases_nonrecursive_members (s : HippoState) (a nm p : String)
    (dbmap : List (String × Database)) (l : List String)
    (h : alookup a s.databases = some dbmap)
    (hl : list_databases s a nm false = .ok l) :
    p ∈ l ↔ ∃ k db, (k, db) ∈ dbmap ∧ db.path = p ∧
      isPrefixStr (processDbName nm) p = true ∧
      countSlash (strDrop p (processDbName nm).length) = 0 := by
  simp only [list_databases, h, if_false, Bool.false_eq_true] at hl
  have hl' : l = ((dbmap.map (fun kv => kv.2.path)).filter
      (fun p => isPrefixStr (processDbName nm) p)).filter
      (fun p => countSlash (strDrop p (processDbName nm).length) == 0) := by
    cases hl
    rfl
  subst hl'
  constructor
  · intro hp
    rcases List.mem_filter.1 hp with ⟨hp1, hp2⟩
    rcases List.mem_filter.1 hp1 with ⟨hp3, hp4⟩
    rcases List.mem_map.1 hp3 with ⟨kv, hkv, hpath⟩
    refine ⟨kv.1, kv.2, hkv, hpath, hp4, ?_⟩
    simpa using hp2
  · rintro ⟨k, db, hkv, hpath, hpre, hcount⟩
    apply List.mem_filter.2
    refine ⟨List.mem_filter.2 ⟨List.mem_map.2 ⟨(k, db), hkv, hpath⟩, hpre⟩, ?_⟩
    simpa using hcount

/-- C3 amended-claim witness at the concrete three-database store. -/
theorem list_databases_nonrecursive_members_witness :
    alookup "u" exampleTree.databases
      = some [("/", ⟨"uu", "u", "/"⟩), ("/a", ⟨"uuu", "u", "/a"⟩),
              ("/a/b", ⟨"uuuu", "u", "/a/b"⟩), ("/a/b/c", ⟨"uuuuu", "u", "/a/b/c"⟩)] ∧
    list_databases exampleTree "u" "/a" false = .ok ["/a"] ∧
    ("/a/b" ∈ (["/a"] : List String) ↔ ∃ k db,
      (k, db) ∈ [("/", (⟨"uu", "u", "/"⟩ : Database)), ("/a", ⟨"uuu", "u", "/a"⟩),
                 ("/a/b", ⟨"uuuu", "u", "/a/b"⟩), ("/a/b/c", ⟨"uuuuu", "u", "/a/b/c"⟩)] ∧
      db.path = "/a/b" ∧ isPrefixStr (processDbName "/a") "/a/b" = true ∧
      countSlash (strDrop "/a/b" (processDbName "/a").length) = 0) :=
  ⟨by decide, by decide,
    list_databases_nonrecursive_members exampleTree "u" "/a" "/a/b"
      [("/", ⟨"uu", "u", "/"⟩), ("/a", ⟨"uuu", "u", "/a"⟩),
       ("/a/b", ⟨"uuuu", "u", "/a/b"⟩), ("/a/b/c", ⟨"uuuuu", "u", "/a/b/c"⟩)]
      ["/a"] (by decide) (by decide)⟩

/-! ## Claim C9 — read_document on an unknown name -/

/-- C9: when the document name is absent from the database's document map,
`read_document` fails with the key-lookup NotFound failure and returns the
store unchanged. -/
theorem read_document_unknown_name (s : HippoState) (a d n : String)
    (docmaps : List (String × List (String × String))) (docmap : List (String × String))
    (h1 : alookup a s.documents = some docmaps)
    (h2 : alookup d docmaps = some docmap)
    (hn : alookup n docmap = none) :
    read_document s a d n = (.error .keyError, s) := by
  simp [read_document, h1, h2, hn]

/-- C9 witness: reading the unknown name `"nope"` from the root database of
the one-application store fails with KeyError and leaves the store as it
was. -/
theorem read_document_unknown_name_witness :
    alookup "u" exampleApp.documents = some [("uu", [])] ∧
    alookup "uu" [(("uu" : String), ([] : List (String × String)))] = some [] ∧
    alookup "nope" ([] : List (String × String)) = none ∧
    read_document exampleApp "u" "uu" "nope" = (.error .keyError, exampleApp) :=
  ⟨by decide, by decide, by decide,
    read_document_unknown_name exampleApp "u" "uu" "nope" [("uu", [])] []
      (by decide) (by decide) (by decide)⟩

/-! ## Claim C4 — update_document is a create-or-replace upsert -/

/-- C4: with the application and database present in the index, a new name
gets the freshly generated id `genId s.nextId` registered in the in-memory
document map and persisted to the per-database map file, while an existing
name reuses its stored id and leaves both maps untouched; in both cases the
contents are written to the content file under the resolved id. -/
theorem update_document_upsert (s : HippoState) (a d n c : String)
    (docmaps : List (String × List (String × String))) (docmap : List (String × String))
    (h1 : alookup a s.documents = some docmaps)
    (h2 : alookup d docmaps = some docmap) :
    (alookup n docmap = none →
      (update_document s a d n c).1 = .ok () ∧
      alookup a (update_document s a d n c).2.documents
        = some (aset d (aset n (genId s.nextId) docmap) docmaps) ∧
      alookup (a, d) (update_document s a d n c).2.disk.docMapFiles
        = some (aset n (genId s.nextId) docmap) ∧
      alookup (a, d, genId s.nextId) (update_document s a d n c).2.disk.contentFiles
        = some c) ∧
    (∀ i, alookup n docmap = some i →
      (update_document s a d n c).1 = .ok () ∧
      (update_document s a d n c).2.documents = s.documents ∧
      (update_document s a d n c).2.disk.docMapFiles = s.disk.docMapFiles ∧
      alookup (a, d, i) (update_document s a d n c).2.disk.contentFiles = some c) := by
  constructor
  · intro hn
    simp [update_document, save_document_map, writeContent, h1, h2, hn,
      alookup_aset_self]
  · intro i hi
    simp [update_document, writeContent, h1, h2, hi, alookup_aset_self]

/-- C4 witness: both branches instantiated at the one-application store,
writing `"doc"` (fresh, gets id `genId 2`) into the empty root database. -/
theorem update_document_upsert_witness :
    alookup "u" exampleApp.documents = some [("uu", [])] ∧
    alookup "uu" [(("uu" : String), ([] : List (String × String)))] = some [] ∧
    ((alookup "doc" ([] : List (String × String)) = none →
      (update_document exampleApp "u" "uu" "doc" "hi").1 = .ok () ∧
      alookup "u" (update_document exampleApp "u" "uu" "doc" "hi").2.documents
        = some (aset "uu" (aset "doc" (genId exampleApp.nextId) []) [("uu", [])]) ∧
      alookup ("u", "uu") (update_document exampleApp "u" "uu" "doc" "hi").2.disk.docMapFiles
        = some (aset "doc" (genId exampleApp.nextId) []) ∧
      alookup ("u", "uu", genId exampleApp.nextId)
          (update_document exampleApp "u" "uu" "doc" "hi").2.disk.contentFiles
        = some "hi") ∧
    (∀ i, alookup "doc" ([] : List (String × String)) = some i →
      (update_document exampleApp "u" "uu" "doc" "hi").1 = .ok () ∧
      (update_document exampleApp "u" "uu" "doc" "hi").2.documents = exampleApp.documents ∧
      (update_document exampleApp "u" "uu" "doc" "hi").2.disk.docMapFiles
        = exampleApp.disk.docMapFiles ∧
      alookup ("u", "uu", i) (update_document exampleApp "u" "uu" "doc" "hi").2.disk.contentFiles
        = some "hi")) :=
  ⟨by decide, by decide,
    update_document_upsert exampleApp "u" "uu" "doc" "hi" [("uu", [])] []
      (by decide) (by decide)⟩

/-! ## Claim C6 — write/read round trip -/

/-- C6: with the application and database present in the index, writing any
contents under any name and immediately reading that name back returns the
contents just written, byte for byte. -/
theorem update_then_read_roundtrip (s : HippoState) (a d n c : String)
    (docmaps : List (String × List (String × String))) (docmap : List (String × String))
    (h1 : alookup a s.documents = some docmaps)
    (h2 : alookup d docmaps = some docmap) :
    (read_document (update_document s a d n c).2 a d n).1 = .ok c := by
  cases hn : alookup n docmap with
  | none =>
    simp [update_document, save_document_map, writeContent, read_document,
      h1, h2, hn, alookup_aset_self]
  | some i =>
    simp [update_document, writeContent, read_document, h1, h2, hn,
      alookup_aset_self]

/-- C6 witness: writing `"payload"` under the fresh name `"doc"` in the
one-application store, then reading `"doc"`, yields `"payload"`. -/
theorem update_then_read_roundtrip_witness :
    alookup "u" exampleApp.documents = some [("uu", [])] ∧
    alookup "uu" [(("uu" : String), ([] : List (String × String)))] = some [] ∧
    (read_document (update_document exampleApp "u" "uu" "doc" "payload").2 "u" "uu" "doc").1
      = .ok "payload" :=
  ⟨by decide, by decide,
    update_then_read_roundtrip exampleApp "u" "uu" "doc" "payload" [("uu", [])] []
      (by decide) (by decide)⟩

/-! ## Claim C5 — createApplication creates the root database -/

/-- C5: on any store and for any name, `create_application` succeeds,
returns the new application, leaves that application with exactly the one
database at path `/`, and the non-recursive listing from `/` for the fresh
application returns exactly `["/"]`. -/
theorem create_application_root_database (s : HippoState) (name : String) :
    (create_application s name).1 = .ok ⟨genId s.nextId, name⟩ ∧
    alookup (genId s.nextId) (create_application s name).2.databases
      = some [("/", ⟨genId (s.nextId + 1), genId s.nextId, "/"⟩)] ∧
    list_databases (create_application s name).2 (genId s.nextId) "/" false = .ok ["/"] := by
  have hroot : isPrefixStr (processDbName "/") "/" = true := by decide
  have hcount : (countSlash (strDrop "/" (processDbName "/").length) == 0) = true := by decide
  simp [create_application, create_database, save_applications_file, save_db_map,
    save_document_map, list_databases, aset, alookup, alookup_aset_self, hroot, hcount]

/-! ## Claim C7 — deleteApplication cascades -/

theorem alookup_aerase_self {κ α : Type} [DecidableEq κ] {l : List (κ × α)}
    (h : (l.map Prod.fst).Nodup) (k : κ) : alookup k (aerase k l) = none := by
  rw [aerase_eq_filter h]
  apply alookup_eq_none_of_forall
  intro x hx
  have hz := (List.mem_filter.1 hx).2
  simpa using hz

theorem nodup_keys_filter {κ α : Type} [DecidableEq κ] {l : List (κ × α)}
    (h : (l.map Prod.fst).Nodup) (p : κ × α → Bool) :
    ((l.filter p).map Prod.fst).Nodup :=
  h.sublist (List.Sublist.map Prod.fst (List.filter_sublist l))

/-- Deleting the collected keys one by one from a duplicate-free map is the
same as filtering them all out at once. -/
theorem foldl_aerase_eq_filter {κ α : Type} [DecidableEq κ] :
    ∀ (tids : List κ) (l : List (κ × α)), (l.map Prod.fst).Nodup →
      tids.foldl (fun m t => aerase t m) l
        = l.filter (fun kv => !(decide (kv.1 ∈ tids))) := by
  intro tids
  induction tids with
  | nil =>
    intro l _
    simp
  | cons t ts ih =>
    intro l h
    have h1 : aerase t l = l.filter (fun kv => !(decide (kv.1 = t))) :=
      aerase_eq_filter h t
    have h2 : ((aerase t l).map Prod.fst).Nodup := by
      rw [h1]
      exact nodup_keys_filter h _
    calc (t :: ts).foldl (fun m t' => aerase t' m) l
        = ts.foldl (fun m t' => aerase t' m) (aerase t l) := rfl
      _ = (aerase t l).filter (fun kv => !(decide (kv.1 ∈ ts))) := ih _ h2
      _ = (l.filter (fun kv => !(decide (kv.1 = t)))).filter
            (fun kv => !(decide (kv.1 ∈ ts))) := by rw [h1]
      _ = l.filter (fun kv => !(decide (kv.1 ∈ t :: ts))) := by
            rw [List.filter_filter]
            apply List.filter_congr
            intro x _
            by_cases hxt : x.1 = t
            · simp [hxt]
            · by_cases hxs : x.1 ∈ ts
              · simp [hxt, hxs]
              · simp [hxt, hxs]

/-- C7: deleting an existing application succeeds and removes its
application record, its database scope, its document scope, and every
token referencing it; afterwards, lookups under that application id fail:
reading any document or listing databases yields the key-lookup NotFound
failure.  The `Nodup` hypotheses state that each map binds a key at most
once, which is forced for Python dicts. -/
theorem delete_application_cascades (s : HippoState) (a : String)
    (hda : (alookup a s.databases).isSome = true)
    (hdo : (alookup a s.documents).isSome = true)
    (hap : (alookup a s.applications).isSome = true)
    (hnodupDb : (s.databases.map Prod.fst).Nodup)
    (hnodupDoc : (s.documents.map Prod.fst).Nodup)
    (hnodupApp : (s.applications.map Prod.fst).Nodup)
    (hnodupTok : (s.tokens.map Prod.fst).Nodup) :
    (delete_application s a).1 = .ok () ∧
    alookup a (delete_application s a).2.applications = none ∧
    alookup a (delete_application s a).2.databases = none ∧
    alookup a (delete_application s a).2.documents = none ∧
    (∀ tid tok, alookup tid (delete_application s a).2.tokens = some tok →
      tok.application ≠ a) ∧
    (∀ d n, (read_document (delete_application s a).2 a d n).1 = .error .keyError) ∧
    (∀ nm r, list_databases (delete_application s a).2 a nm r = .error .keyError) := by
  rw [Option.isSome_iff_exists] at hda hdo hap
  obtain ⟨dbmap, hda⟩ := hda
  obtain ⟨docmaps, hdo⟩ := hdo
  obtain ⟨app, hap⟩ := hap
  have hdbNone : alookup a (aerase a s.databases) = none := alookup_aerase_self hnodupDb a
  have hdoNone : alookup a (aerase a s.documents) = none := alookup_aerase_self hnodupDoc a
  have hapNone : alookup a (aerase a s.applications) = none := alookup_aerase_self hnodupApp a
  have htok : ∀ tid tok,
      alookup tid (((s.tokens.filter (fun kv => kv.2.application == a)).map Prod.fst).foldl
        (fun m t => aerase t m) s.tokens) = some tok → tok.application ≠ a := by
    intro tid tok hlk htoka
    rw [foldl_aerase_eq_filter _ _ hnodupTok] at hlk
    have hmem := mem_of_alookup_eq_some hlk
    have hflt := (List.mem_filter.1 hmem).2
    have hmem' : (tid, tok) ∈ s.tokens := (List.mem_filter.1 hmem).1
    have hin : tid ∈ (s.tokens.filter (fun kv => kv.2.application == a)).map Prod.fst := by
      apply List.mem_map.2
      refine ⟨(tid, tok), List.mem_filter.2 ⟨hmem', ?_⟩, rfl⟩
      simp [htoka]
    simp [hin] at hflt
  refine ⟨?_, ?_, ?_, ?_, ?_, ?_, ?_⟩
  · simp [delete_application, hda, hdo, hap]
  · simpa [delete_application, hda, hdo, hap, rmtreeApp, save_applications_file]
      using hapNone
  · simpa [delete_application, hda, hdo, hap, rmtreeApp, save_applications_file]
      using hdbNone
  · simpa [delete_application, hda, hdo, hap, rmtreeApp, save_applications_file]
      using hdoNone
  · intro tid tok hlk
    refine htok tid tok ?_
    simpa [delete_application, hda, hdo, hap, rmtreeApp, save_applications_file] using hlk
  · intro d n
    simp [delete_application, hda, hdo, hap, rmtreeApp, save_applications_file,
      read_document, hdoNone]
  · intro nm r
    simp [delete_application, hda, hdo, hap, rmtreeApp, save_applications_file,
      list_databases, hdbNone]

/-- C7 witness: deleting application `"u"` from the store that holds it
together with a token referencing it. -/
theorem delete_application_cascades_witness :
    (alookup "u" exampleTok.databases).isSome = true ∧
    (alookup "u" exampleTok.documents).isSome = true ∧
    (alookup "u" exampleTok.applications).isSome = true ∧
    ((delete_application exampleTok "u").1 = .ok () ∧
     alookup "u" (delete_application exampleTok "u").2.applications = none ∧
     alookup "u" (delete_application exampleTok "u").2.databases = none ∧
     alookup "u" (delete_application exampleTok "u").2.documents = none ∧
     (∀ tid tok, alookup tid (delete_application exampleTok "u").2.tokens = some tok →
       tok.application ≠ "u") ∧
     (∀ d n, (read_document (delete_application exampleTok "u").2 "u" d n).1
       = .error .keyError) ∧
     (∀ nm r, list_databases (delete_application exampleTok "u").2 "u" nm r
       = .error .keyError)) :=
  ⟨by decide, by decide, by decide,
    delete_application_cascades exampleTok "u" (by decide) (by decide) (by decide)
      (by decide) (by decide) (by decide) (by decide)⟩

/-! ## Claim C10 — every key of a path-to-Database map is the Database's path -/

/-- The C10 invariant, executable form: in every application's database
map, each binding's key equals the `path` field of the bound `Database`. -/
def pathKeyInvB (s : HippoState) : Bool :=
  s.databases.all (fun am => am.2.all (fun pdb => pdb.2.path == pdb.1))

/-- Property of one inner path-to-Database map. -/
def InnerKeyed (m : List (String × Database)) : Prop :=
  ∀ pdb ∈ m, pdb.2.path = pdb.1

/-- Property of the whole `databases` index. -/
def DbsKeyed (dbs : List (String × List (String × Database))) : Prop :=
  ∀ am ∈ dbs, InnerKeyed am.2

theorem pathKeyInvB_iff (s : HippoState) :
    pathKeyInvB s = true ↔ DbsKeyed s.databases := by
  simp [pathKeyInvB, DbsKeyed, InnerKeyed, List.all_eq_true, beq_iff_eq]

theorem InnerKeyed_nil : InnerKeyed [] := by
  intro pdb h
  simp at h

theorem InnerKeyed_aerase {m : List (String × Database)} (h : InnerKeyed m) (k : String) :
    InnerKeyed (aerase k m) :=
  fun pdb hm => h pdb (mem_aerase hm)

theorem InnerKeyed_aset_path {m : List (String × Database)} (h : InnerKeyed m)
    (i ap p : String) : InnerKeyed (aset p ⟨i, ap, p⟩ m) := by
  intro pdb hm
  rcases mem_aset hm with hm | hm
  · rw [hm]
  · exact h pdb hm

theorem InnerKeyed_foldl_path (dbs : List Database) :
    ∀ base, InnerKeyed base →
      InnerKeyed (dbs.foldl (fun m db => aset db.path db m) base) := by
  induction dbs with
  | nil => intro base h; exact h
  | cons db t ih =>
    intro base h
    apply ih
    intro pdb hm
    rcases mem_aset hm with hm | hm
    · rw [hm]
    · exact h pdb hm

theorem DbsKeyed_aset {dbs : List (String × List (String × Database))}
    (h : DbsKeyed dbs) {m : List (String × Database)} (hm : InnerKeyed m) (a : String) :
    DbsKeyed (aset a m dbs) := by
  intro am ham
  rcases mem_aset ham with ham | ham
  · rw [ham]
    exact hm
  · exact h am ham

theorem DbsKeyed_aerase {dbs : List (String × List (String × Database))}
    (h : DbsKeyed dbs) (a : String) : DbsKeyed (aerase a dbs) :=
  fun am ham => h am (mem_aerase ham)

theorem DbsKeyed_setdefault {dbs : List (String × List (String × Database))}
    (h : DbsKeyed dbs) (a : String) : DbsKeyed (setdefaultA a [] dbs) := by
  unfold setdefaultA
  cases alookup a dbs with
  | some m => exact h
  | none => exact DbsKeyed_aset h InnerKeyed_nil a

theorem InnerKeyed_of_alookup {dbs : List (String × List (String × Database))}
    (h : DbsKeyed dbs) {a : String} {m : List (String × Database)}
    (hl : alookup a dbs = some m) : InnerKeyed m :=
  h (a, m) (mem_of_alookup_eq_some hl)

theorem InnerKeyed_agetD {dbs : List (String × List (String × Database))}
    (h : DbsKeyed dbs) (a : String) : InnerKeyed (agetD a dbs []) := by
  unfold agetD
  cases hl : alookup a dbs with
  | none => exact InnerKeyed_nil
  | some m => exact InnerKeyed_of_alookup h hl

/-- `save_document_map` only writes the disk: on success every in-memory
field survives. -/
theorem save_document_map_preserves (s : HippoState) (a d : String) (s' : HippoState)
    (h : save_document_map s a d = .ok s') :
    s'.applications = s.applications ∧ s'.tokens = s.tokens ∧
    s'.databases = s.databases ∧ s'.documents = s.documents ∧ s'.nextId = s.nextId := by
  unfold save_document_map at h
  split at h
  · cases h
  · split at h
    · cases h
    · injection h with h
      subst h
      simp

/-- `save_db_map` only writes the disk: on success every in-memory field
survives. -/
theorem save_db_map_preserves (s : HippoState) (a : String) (s' : HippoState)
    (h : save_db_map s a = .ok s') :
    s'.applications = s.applications ∧ s'.tokens = s.tokens ∧
    s'.databases = s.databases ∧ s'.documents = s.documents ∧ s'.nextId = s.nextId := by
  unfold save_db_map at h
  split at h
  · cases h
  · injection h with h
    subst h
    simp

theorem writeContent_databases (s : HippoState) (a d i c : String) :
    (writeContent s a d i c).databases = s.databases := rfl

theorem create_token_databases (s : HippoState) (a : String) (w : Bool) :
    (create_token s a w).2.databases = s.databases := by
  simp [create_token, save_applications_file, alookup_aset_self]

theorem delete_token_databases (s : HippoState) (t : String) :
    (delete_token s t).2.databases = s.databases := by
  unfold delete_token save_applications_file
  split
  · rfl
  · rfl

theorem read_document_state (s : HippoState) (a d n : String) :
    (read_document s a d n).2 = s := by
  unfold read_document
  split
  · rfl
  · split
    · rfl
    · split
      · rfl
      · split
        · rfl
        · rfl

theorem update_document_databases (s : HippoState) (a d n c : String) :
    (update_document s a d n c).2.databases = s.databases := by
  unfold update_document
  split
  · rfl
  · split
    · rfl
    · split
      · simp only []
        split
        · rfl
        · rename_i s2 hs2
          have hp := save_document_map_preserves _ _ _ _ hs2
          rw [writeContent_databases, hp.2.2.1]
      · rw [writeContent_databases]

theorem delete_document_databases (s : HippoState) (a d n : String) :
    (delete_document s a d n).2.databases = s.databases := by
  unfold delete_document
  split
  · rfl
  · split
    · rfl
    · split
      · rfl
      · split
        · rfl
        · simp only []
          split
          · rfl
          · rename_i s2 hs2
            have hp := save_document_map_preserves _ _ _ _ hs2
            rw [hp.2.2.1]

theorem pathkey_create_database (s : HippoState) (a p : String)
    (h : DbsKeyed s.databases) : DbsKeyed (create_database s a p).2.databases := by
  unfold create_database
  split
  · exact h
  · rename_i dbmap hdb
    have hnew : DbsKeyed (aset a (aset p ⟨genId s.nextId, a, p⟩ dbmap) s.databases) :=
      DbsKeyed_aset h (InnerKeyed_aset_path (InnerKeyed_of_alookup h hdb) _ _ _) a
    simp only []
    split
    · exact hnew
    · split
      · exact hnew
      · rename_i s2 hs2
        have hp := save_db_map_preserves _ _ _ hs2
        split
        · rw [hp.2.2.1]
          exact hnew
        · rename_i s3 hs3
          have hp3 := save_document_map_preserves _ _ _ _ hs3
          split
          · rw [hp3.2.2.1, hp.2.2.1]
            exact hnew
          · split
            · rw [hp3.2.2.1, hp.2.2.1]
              exact hnew
            · rw [hp3.2.2.1, hp.2.2.1]
              exact hnew

/-- The state returned by `create_application` is exactly the state left by
the inner `create_database` call (the trailing lookup mutates nothing). -/
theorem create_application_state (s : HippoState) (nm : String) :
    (create_application s nm).2
      = (create_database (save_applications_file
          { s with nextId := s.nextId + 1,
                   applications := aset (genId s.nextId) ⟨genId s.nextId, nm⟩ s.applications,
                   databases := aset (genId s.nextId) [] s.databases,
                   documents := aset (genId s.nextId) [] s.documents })
          (genId s.nextId) "/").2 := by
  unfold create_application
  simp only []
  split
  · rename_i hcd
    rw [hcd]
  · rename_i hcd
    split
    · rw [hcd]
    · rw [hcd]

theorem pathkey_create_application (s : HippoState) (nm : String)
    (h : DbsKeyed s.databases) : DbsKeyed (create_application s nm).2.databases := by
  rw [create_application_state]
  exact pathkey_create_database _ _ _ (DbsKeyed_aset h InnerKeyed_nil _)

theorem pathkey_delete_database (s : HippoState) (a d : String)
    (h : DbsKeyed s.databases) : DbsKeyed (delete_database s a d).2.databases := by
  unfold delete_database
  split
  · exact h
  · rename_i dbmap hdb
    split
    · exact h
    · have h1 : DbsKeyed (aset a (aerase d dbmap) s.databases) :=
        DbsKeyed_aset h (InnerKeyed_aerase (InnerKeyed_of_alookup h hdb) d) a
      simp only []
      split
      · exact h1
      · split
        · exact h1
        · split
          · exact h1
          · rename_i s2 hs2
            have hp := save_db_map_preserves _ _ _ hs2
            rw [hp.2.2.1]
            exact h1

theorem pathkey_delete_application (s : HippoState) (a : String)
    (h : DbsKeyed s.databases) : DbsKeyed (delete_application s a).2.databases := by
  unfold delete_application
  split
  · exact h
  · have h1 : DbsKeyed (aerase a s.databases) := DbsKeyed_aerase h a
    simp only []
    split
    · exact h1
    · split
      · exact h1
      · exact h1

theorem load_applications_file_databases (s : HippoState) :
    (load_applications_file s).databases = s.databases := by
  unfold load_applications_file save_applications_file
  split
  · rfl
  · rfl

theorem load_document_map_databases (s : HippoState) (a d : String) :
    (load_document_map s a d).databases = s.databases := by
  unfold load_document_map
  simp only []
  split
  · split
    · rename_i s2 hs2
      have hp := save_document_map_preserves _ _ _ _ hs2
      rw [hp.2.2.1]
    · rfl
  · rfl

theorem pathkey_load_db_map (s : HippoState) (a : String)
    (h : DbsKeyed s.databases) : DbsKeyed (load_db_map s a).databases := by
  unfold load_db_map
  have h0 : DbsKeyed (setdefaultA a [] s.databases) := DbsKeyed_setdefault h a
  simp only []
  split
  · split
    · rename_i s2 hs2
      have hp := save_db_map_preserves _ _ _ hs2
      rw [hp.2.2.1]
      exact h0
    · exact h0
  · exact DbsKeyed_aset h0 (InnerKeyed_foldl_path _ _ (InnerKeyed_agetD h0 a)) a

theorem pathkey_fold_docmaps (a : String) (dbs : List Database) :
    ∀ s : HippoState, DbsKeyed s.databases →
      DbsKeyed ((dbs.foldl (fun s' db => load_document_map s' a db.id) s)).databases := by
  induction dbs with
  | nil => intro s h; exact h
  | cons db t ih =>
    intro s h
    apply ih
    rw [load_document_map_databases]
    exact h

theorem pathkey_loadApp (s : HippoState) (a : String)
    (h : DbsKeyed s.databases) : DbsKeyed (loadApp s a).databases := by
  unfold loadApp
  exact pathkey_fold_docmaps a _ _ (pathkey_load_db_map s a h)

theorem pathkey_fold_loadApp (apps : List String) :
    ∀ s : HippoState, DbsKeyed s.databases →
      DbsKeyed ((apps.foldl loadApp s)).databases := by
  induction apps with
  | nil => intro s h; exact h
  | cons a t ih =>
    intro s h
    exact ih _ (pathkey_loadApp s a h)

theorem pathkey_load (s : HippoState) (h : DbsKeyed s.databases) :
    DbsKeyed (load s).databases := by
  unfold load
  apply pathkey_fold_loadApp
  rw [load_applications_file_databases]
  exact h

/-- C10: the path-key invariant — in every application's database map each
key equals the `path` field of the stored `Database` — is preserved by
every store operation and holds for any store freshly loaded from any
disk. -/
theorem path_key_invariant :
    (∀ s a w, pathKeyInvB s = true → pathKeyInvB (create_token s a w).2 = true) ∧
    (∀ s nm, pathKeyInvB s = true → pathKeyInvB (create_application s nm).2 = true) ∧
    (∀ s a p, pathKeyInvB s = true → pathKeyInvB (create_database s a p).2 = true) ∧
    (∀ s a d n c, pathKeyInvB s = true → pathKeyInvB (update_document s a d n c).2 = true) ∧
    (∀ s a d n, pathKeyInvB s = true → pathKeyInvB (read_document s a d n).2 = true) ∧
    (∀ s a d n, pathKeyInvB s = true → pathKeyInvB (delete_document s a d n).2 = true) ∧
    (∀ s a d, pathKeyInvB s = true → pathKeyInvB (delete_database s a d).2 = true) ∧
    (∀ s a, pathKeyInvB s = true → pathKeyInvB (delete_application s a).2 = true) ∧
    (∀ s t, pathKeyInvB s = true → pathKeyInvB (delete_token s t).2 = true) ∧
    (∀ d, pathKeyInvB (freshLoad d) = true) := by
  refine ⟨?_, ?_, ?_, ?_, ?_, ?_, ?_, ?_, ?_, ?_⟩
  · intro s a w h
    unfold pathKeyInvB
    rw [create_token_databases]
    exact h
  · intro s nm h
    rw [pathKeyInvB_iff] at h ⊢
    exact pathkey_create_application s nm h
  · intro s a p h
    rw [pathKeyInvB_iff] at h ⊢
    exact pathkey_create_database s a p h
  · intro s a d n c h
    unfold pathKeyInvB
    rw [update_document_databases]
    exact h
  · intro s a d n h
    unfold pathKeyInvB
    rw [read_document_state]
    exact h
  · intro s a d n h
    unfold pathKeyInvB
    rw [delete_document_databases]
    exact h
  · intro s a d h
    rw [pathKeyInvB_iff] at h ⊢
    exact pathkey_delete_database s a d h
  · intro s a h
    rw [pathKeyInvB_iff] at h ⊢
    exact pathkey_delete_application s a h
  · intro s t h
    unfold pathKeyInvB
    rw [delete_token_databases]
    exact h
  · intro d
    rw [pathKeyInvB_iff]
    unfold freshLoad
    apply pathkey_load
    intro am ham
    simp at ham

/-- C10 witness: the invariant holds for the one-application store and is
preserved there by creating a further database. -/
theorem path_key_invariant_witness :
    pathKeyInvB exampleApp = true ∧
    pathKeyInvB (create_database exampleApp "u" "/x").2 = true :=
  ⟨by decide, path_key_invariant.2.2.1 exampleApp "u" "/x" (by decide)⟩

/-! ## Claim C8 — create/delete histories round-trip through the side-car files

A history of `create_application` / `delete_application` calls starting from
the fresh store only ever produces states of a simple shape: a list of
applications, each holding exactly its root database `/` and an empty
document map, with the side-car files mirroring them and no tokens or
content files.  `AppDatum` records one application of such a state by the
counter values that produced its id and its root database id. -/

/-- One application of a create/delete-only history: the counter value
behind its id, its name, and the counter value behind its root database
id. -/
structure AppDatum where
  appN : Nat
  name : String
  rootN : Nat
deriving Repr, DecidableEq

def c8Apps (l : List AppDatum) : List (String × Application) :=
  l.map (fun x => (genId x.appN, ⟨genId x.appN, x.name⟩))

def c8Databases (l : List AppDatum) : List (String × List (String × Database)) :=
  l.map (fun x => (genId x.appN, [("/", ⟨genId x.rootN, genId x.appN, "/"⟩)]))

def c8Documents (l : List AppDatum) :
    List (String × List (String × List (String × String))) :=
  l.map (fun x => (genId x.appN, [(genId x.rootN, [])]))

def c8Disk (l : List AppDatum) : Disk :=
  { applicationsFile := some (l.map (fun x => ⟨genId x.appN, x.name⟩), []),
    dbMapFiles := l.map (fun x => (genId x.appN, [(genId x.rootN, ⟨genId x.rootN, genId x.appN, "/"⟩)])),
    docMapFiles := l.map (fun x => ((genId x.appN, genId x.rootN), [])),
    contentFiles := [] }

def c8State (l : List AppDatum) (n : Nat) : HippoState :=
  { applications := c8Apps l, tokens := [], databases := c8Databases l,
    documents := c8Documents l, disk := c8Disk l, nextId := n }

/-- All counter values appearing in a history state, in order. -/
def natsOf : List AppDatum → List Nat
  | [] => []
  | x :: t => x.appN :: x.rootN :: natsOf t

/-- Well-formedness of a history state: every recorded counter value is
below the current counter, and no value repeats (ids are unique). -/
def c8Good (l : List AppDatum) (n : Nat) : Prop :=
  (∀ k ∈ natsOf l, k < n) ∧ (natsOf l).Nodup

theorem natsOf_append (l₁ l₂ : List AppDatum) :
    natsOf (l₁ ++ l₂) = natsOf l₁ ++ natsOf l₂ := by
  induction l₁ with
  | nil => rfl
  | cons x t ih => simp [natsOf, ih]

theorem appN_mem_natsOf {x : AppDatum} {l : List AppDatum} (h : x ∈ l) :
    x.appN ∈ natsOf l := by
  induction l with
  | nil => simp at h
  | cons y t ih =>
    rcases List.mem_cons.1 h with h | h
    · simp [natsOf, h]
    · simp [natsOf, ih h]

theorem rootN_mem_natsOf {x : AppDatum} {l : List AppDatum} (h : x ∈ l) :
    x.rootN ∈ natsOf l := by
  induction l with
  | nil => simp at h
  | cons y t ih =>
    rcases List.mem_cons.1 h with h | h
    · simp [natsOf, h]
    · simp [natsOf, ih h]

theorem appNs_sublist_natsOf (l : List AppDatum) :
    List.Sublist (l.map (fun x => x.appN)) (natsOf l) := by
  induction l with
  | nil => simp
  | cons x t ih =>
    show List.Sublist (x.appN :: t.map (fun x => x.appN)) (x.appN :: x.rootN :: natsOf t)
    exact List.Sublist.cons₂ _ (List.Sublist.cons _ ih)

theorem c8Good_appNs_nodup {l : List AppDatum} {n : Nat} (hg : c8Good l n) :
    (l.map (fun x => x.appN)).Nodup :=
  hg.2.sublist (appNs_sublist_natsOf l)

theorem alookup_c8map_none {β : Type} (g : AppDatum → β) {l : List AppDatum} {m : Nat}
    (h : ∀ x ∈ l, x.appN ≠ m) :
    alookup (genId m) (l.map (fun x => (genId x.appN, g x))) = none := by
  apply alookup_eq_none_of_forall
  intro y hy
  rcases List.mem_map.1 hy with ⟨x, hx, rfl⟩
  intro hgen
  exact h x hx (genId_inj hgen)

theorem alookup_c8pair_none {β : Type} (g : AppDatum → β) {l : List AppDatum} {m r : Nat}
    (h : ∀ x ∈ l, x.appN ≠ m) :
    alookup (genId m, genId r) (l.map (fun x => ((genId x.appN, genId x.rootN), g x))) = none := by
  apply alookup_eq_none_of_forall
  intro y hy
  rcases List.mem_map.1 hy with ⟨x, hx, rfl⟩
  intro hgen
  exact h x hx (genId_inj (congrArg Prod.fst hgen))

theorem fresh_ne_of_good {l : List AppDatum} {n : Nat} (hg : c8Good l n) {m : Nat}
    (hm : n ≤ m) : ∀ x ∈ l, x.appN ≠ m := by
  intro x hx h
  have := hg.1 _ (appN_mem_natsOf hx)
  omega

theorem filter_map_comm {α β : Type} (f : α → β) (p : β → Bool) (q : α → Bool)
    (hpq : ∀ x, p (f x) = q x) : ∀ l : List α, (l.map f).filter p = (l.filter q).map f := by
  intro l
  induction l with
  | nil => rfl
  | cons x t ih =>
    by_cases hx : q x = true
    · simp [List.filter_cons, hpq, hx, ih]
    · have hx' : q x = false := by
        revert hx
        cases q x <;> simp
      simp [List.filter_cons, hpq, hx', ih]

/-- Creating an application on a well-formed history state appends one
application (ids `genId n` and `genId (n + 1)`) and advances the counter by
two. -/
theorem create_application_c8 (l : List AppDatum) (n : Nat) (nm : String)
    (hg : c8Good l n) :
    create_application (c8State l n) nm
      = (.ok ⟨genId n, nm⟩, c8State (l ++ [⟨n, nm, n + 1⟩]) (n + 2)) := by
  have hne : ∀ x ∈ l, x.appN ≠ n := fresh_ne_of_good hg (Nat.le_refl n)
  have hA := alookup_c8map_none (fun x => Application.mk (genId x.appN) x.name) hne
  have hD := alookup_c8map_none
    (fun x => [("/", Database.mk (genId x.rootN) (genId x.appN) "/")]) hne
  have hC := alookup_c8map_none
    (fun x => [(genId x.rootN, ([] : List (String × String)))]) hne
  have hF := alookup_c8map_none
    (fun x => [(genId x.rootN, Database.mk (genId x.rootN) (genId x.appN) "/")]) hne
  have hP := alookup_c8pair_none (r := n + 1)
    (fun _ => ([] : List (String × String))) hne
  simp [create_application, create_database, save_applications_file, save_db_map,
    save_document_map, c8State, c8Apps, c8Databases, c8Documents, c8Disk,
    hA, hD, hC, hF, hP, aset_absent hA, aset_absent hD, aset_absent hC,
    aset_absent hF, aset_absent hP, alookup_append_none hA, alookup_append_none hD,
    alookup_append_none hC, aset_append_self hD, aset_append_self hC,
    alookup, aset]

/-- The applications remaining after deleting the one keyed `a` (all of
them, when `a` is not an application id of the history). -/
def c8Erase (a : String) (l : List AppDatum) : List AppDatum :=
  l.filter (fun x => !(genId x.appN == a))

theorem c8map_keys_nodup {β : Type} (g : AppDatum → β) {l : List AppDatum} {n : Nat}
    (hg : c8Good l n) :
    ((l.map (fun x => (genId x.appN, g x))).map Prod.fst).Nodup := by
  have h : (l.map (fun x => (genId x.appN, g x))).map Prod.fst
      = l.map (fun x => genId x.appN) := by
    simp [List.map_map]
  rw [h]
  have h2 : l.map (fun x => genId x.appN) = (l.map (fun x => x.appN)).map genId := by
    simp [List.map_map]
  rw [h2]
  exact (c8Good_appNs_nodup hg).map genId_inj

theorem aerase_c8map {β : Type} (g : AppDatum → β) {l : List AppDatum} {n : Nat}
    (hg : c8Good l n) (a : String) :
    aerase a (l.map (fun x => (genId x.appN, g x)))
      = (c8Erase a l).map (fun x => (genId x.appN, g x)) := by
  rw [aerase_eq_filter (c8map_keys_nodup g hg) a,
    filter_map_comm (fun x => (genId x.appN, g x)) (fun kv => !(decide (kv.1 = a)))
      (fun x => !(decide (genId x.appN = a))) (fun x => rfl) l]
  unfold c8Erase
  congr 1

theorem filter_c8map_fst {β : Type} (g : AppDatum → β) (a : String) (l : List AppDatum) :
    (l.map (fun x => (genId x.appN, g x))).filter (fun kv => !(kv.1 == a))
      = (c8Erase a l).map (fun x => (genId x.appN, g x)) :=
  filter_map_comm _ _ _ (fun _ => rfl) l

theorem filter_c8pair_fst {β : Type} (g : AppDatum → β) (a : String) (l : List AppDatum) :
    (l.map (fun x => ((genId x.appN, genId x.rootN), g x))).filter
        (fun kv => !(kv.1.1 == a))
      = (c8Erase a l).map (fun x => ((genId x.appN, genId x.rootN), g x)) :=
  filter_map_comm _ _ _ (fun _ => rfl) l

theorem natsOf_filter_sublist (p : AppDatum → Bool) (l : List AppDatum) :
    List.Sublist (natsOf (l.filter p)) (natsOf l) := by
  induction l with
  | nil => simp
  | cons x t ih =>
    by_cases hx : p x = true
    · rw [List.filter_cons_of_pos hx]
      exact List.Sublist.cons₂ _ (List.Sublist.cons₂ _ ih)
    · rw [List.filter_cons_of_neg (by simpa using hx)]
      exact List.Sublist.cons _ (List.Sublist.cons _ ih)

theorem c8Good_erase {l : List AppDatum} {n : Nat} (hg : c8Good l n) (a : String) :
    c8Good (c8Erase a l) n :=
  ⟨fun k hk => hg.1 k ((natsOf_filter_sublist _ l).subset hk),
   hg.2.sublist (natsOf_filter_sublist _ l)⟩

theorem c8Good_append {l : List AppDatum} {n : Nat} (hg : c8Good l n) (nm : String) :
    c8Good (l ++ [⟨n, nm, n + 1⟩]) (n + 2) := by
  constructor
  · intro k hk
    rw [natsOf_append] at hk
    rcases List.mem_append.1 hk with hk | hk
    · have := hg.1 k hk
      omega
    · simp [natsOf] at hk
      omega
  · rw [natsOf_append]
    have hdisj : List.Disjoint (natsOf l) (natsOf [⟨n, nm, n + 1⟩]) := by
      intro k hk1 hk2
      have := hg.1 k hk1
      simp [natsOf] at hk2
      omega
    have h2 : (natsOf [(⟨n, nm, n + 1⟩ : AppDatum)]).Nodup := by
      simp [natsOf]
    exact hg.2.append h2 hdisj

/-- Deleting an application id on a well-formed history state filters that
application out (and is the identity when the id is unknown). -/
theorem delete_application_c8 (l : List AppDatum) (n : Nat) (a : String)
    (hg : c8Good l n) :
    (delete_application (c8State l n) a).2 = c8State (c8Erase a l) n := by
  cases hdb : alookup a (c8Databases l) with
  | none =>
    have hne : ∀ x ∈ l, genId x.appN ≠ a := by
      intro x hx
      have hall := forall_ne_of_alookup_eq_none hdb
      have hmem : (genId x.appN, [("/", Database.mk (genId x.rootN) (genId x.appN) "/")])
          ∈ c8Databases l := List.mem_map_of_mem _ hx
      exact hall _ hmem
    have herase : c8Erase a l = l := by
      unfold c8Erase
      apply List.filter_eq_self.2
      intro x hx
      simp [hne x hx]
    simp [delete_application, c8State, hdb, herase]
  | some dbmap =>
    obtain ⟨x₀, hx₀, hkey⟩ : ∃ x ∈ l, genId x.appN = a := by
      have hmem := mem_of_alookup_eq_some hdb
      rcases List.mem_map.1 hmem with ⟨x, hx, hfx⟩
      exact ⟨x, hx, congrArg Prod.fst hfx⟩
    obtain ⟨docmap, hdo⟩ : ∃ m, alookup a (c8Documents l) = some m := by
      cases hdo : alookup a (c8Documents l) with
      | some m => exact ⟨m, rfl⟩
      | none =>
        exact absurd hkey
          (forall_ne_of_alookup_eq_none hdo _ (List.mem_map_of_mem _ hx₀))
    obtain ⟨app, hap⟩ : ∃ m, alookup a (c8Apps l) = some m := by
      cases hap : alookup a (c8Apps l) with
      | some m => exact ⟨m, rfl⟩
      | none =>
        exact absurd hkey
          (forall_ne_of_alookup_eq_none hap _ (List.mem_map_of_mem _ hx₀))
    have hAAp := aerase_c8map (fun x => Application.mk (genId x.appN) x.name) hg a
    have hADb := aerase_c8map
      (fun x => [("/", Database.mk (genId x.rootN) (genId x.appN) "/")]) hg a
    have hADo := aerase_c8map
      (fun x => [(genId x.rootN, ([] : List (String × String)))]) hg a
    have hFDb := filter_c8map_fst
      (fun x => [(genId x.rootN, Database.mk (genId x.rootN) (genId x.appN) "/")]) a l
    have hFDo := filter_c8pair_fst (fun _ => ([] : List (String × String))) a l
    simp only [c8Databases] at hdb
    simp only [c8Documents] at hdo
    simp only [c8Apps] at hap
    simp [delete_application, c8State, c8Apps, c8Databases, c8Documents, c8Disk,
      hdb, hdo, hap, save_applications_file, rmtreeApp,
      hAAp, hADb, hADo, hFDb, hFDo, List.map_map]

/-- Rebuilding a dict from a list of values with pairwise-distinct keys
(`dict((value.id, value) for value in ...)`) appends each binding in
order. -/
theorem foldl_aset_append {κ α β : Type} [DecidableEq κ] (key : β → κ) (val : β → α) :
    ∀ (xs : List β) (acc : List (κ × α)),
      (∀ x ∈ xs, alookup (key x) acc = none) → (xs.map key).Nodup →
      xs.foldl (fun m x => aset (key x) (val x) m) acc
        = acc ++ xs.map (fun x => (key x, val x)) := by
  intro xs
  induction xs with
  | nil => intro acc _ _; simp
  | cons x t ih =>
    intro acc habs hnd
    simp only [List.map_cons, List.nodup_cons] at hnd
    have hx : alookup (key x) acc = none := habs x (by simp)
    have hstep : (x :: t).foldl (fun m y => aset (key y) (val y) m) acc
        = t.foldl (fun m y => aset (key y) (val y) m) (acc ++ [(key x, val x)]) := by
      simp [aset_absent hx]
    rw [hstep, ih (acc ++ [(key x, val x)]) ?_ hnd.2]
    · simp
    · intro y hy
      have hne : key y ≠ key x := by
        intro h
        exact hnd.1 (h ▸ List.mem_map_of_mem key hy)
      rw [alookup_append_none (habs y (by simp [hy]))]
      simp [alookup, hne.symm]

theorem alookup_c8map_append {β : Type} (g : AppDatum → β) {l₁ : List AppDatum}
    {x : AppDatum} (l₂ : List AppDatum) (h : ∀ y ∈ l₁, y.appN ≠ x.appN) :
    alookup (genId x.appN) ((l₁ ++ x :: l₂).map (fun z => (genId z.appN, g z)))
      = some (g x) := by
  rw [List.map_append, alookup_append_none (alookup_c8map_none g h)]
  simp [alookup]

theorem alookup_c8pair_append {β : Type} (g : AppDatum → β) {l₁ : List AppDatum}
    {x : AppDatum} (l₂ : List AppDatum) (h : ∀ y ∈ l₁, y.appN ≠ x.appN) :
    alookup (genId x.appN, genId x.rootN)
        ((l₁ ++ x :: l₂).map (fun z => ((genId z.appN, genId z.rootN), g z)))
      = some (g x) := by
  rw [List.map_append, alookup_append_none (alookup_c8pair_none g h)]
  simp [alookup]

/-- Replaying the per-application loop of `load` over the unprocessed tail
of a history rebuilds exactly the history's database and document scopes,
touching nothing else. -/
theorem load_fold_c8 (l₂ : List AppDatum) :
    ∀ (l₁ : List AppDatum) (n m : Nat), c8Good (l₁ ++ l₂) n →
      (l₂.map (fun x => genId x.appN)).foldl loadApp
        ⟨c8Apps (l₁ ++ l₂), [], c8Databases l₁, c8Documents l₁, c8Disk (l₁ ++ l₂), m⟩
      = ⟨c8Apps (l₁ ++ l₂), [], c8Databases (l₁ ++ l₂), c8Documents (l₁ ++ l₂),
         c8Disk (l₁ ++ l₂), m⟩ := by
  induction l₂ with
  | nil =>
    intro l₁ n m _
    simp
  | cons x t ih =>
    intro l₁ n m hg
    have hnodup := c8Good_appNs_nodup hg
    rw [List.map_append] at hnodup
    have hdisj := (List.nodup_append.1 hnodup).2.2
    have hne : ∀ y ∈ l₁, y.appN ≠ x.appN := by
      intro y hy h
      exact hdisj (List.mem_map_of_mem _ hy) (by simp [h])
    have hDbNone := alookup_c8map_none
      (fun z => [("/", Database.mk (genId z.rootN) (genId z.appN) "/")])
      (l := l₁) (m := x.appN) hne
    have hDocNone := alookup_c8map_none
      (fun z => [(genId z.rootN, ([] : List (String × String)))])
      (l := l₁) (m := x.appN) hne
    have hDbF := alookup_c8map_append
      (fun z => [(genId z.rootN, Database.mk (genId z.rootN) (genId z.appN) "/")]) t hne
    have hDocF := alookup_c8pair_append
      (fun _ => ([] : List (String × String))) t hne
    simp only [List.map_append, List.map_cons] at hDbF hDocF
    have hload : loadApp
        ⟨c8Apps (l₁ ++ x :: t), [], c8Databases l₁, c8Documents l₁,
         c8Disk (l₁ ++ x :: t), m⟩ (genId x.appN)
      = ⟨c8Apps (l₁ ++ x :: t), [], c8Databases (l₁ ++ [x]), c8Documents (l₁ ++ [x]),
         c8Disk (l₁ ++ x :: t), m⟩ := by
      simp [loadApp, load_db_map, load_document_map, setdefaultA, agetD,
        c8Databases, c8Documents, c8Disk,
        hDbNone, hDocNone, hDbF, hDocF, aset_absent hDbNone, aset_absent hDocNone,
        alookup_append_none hDbNone, alookup_append_none hDocNone,
        aset_append_self hDbNone, aset_append_self hDocNone, alookup, aset]
    have hstep : ((x :: t).map (fun z => genId z.appN)).foldl loadApp
        ⟨c8Apps (l₁ ++ x :: t), [], c8Databases l₁, c8Documents l₁,
         c8Disk (l₁ ++ x :: t), m⟩
      = (t.map (fun z => genId z.appN)).foldl loadApp
        ⟨c8Apps (l₁ ++ x :: t), [], c8Databases (l₁ ++ [x]), c8Documents (l₁ ++ [x]),
         c8Disk (l₁ ++ x :: t), m⟩ := by
      simp [hload]
    rw [hstep]
    have hassoc : l₁ ++ x :: t = (l₁ ++ [x]) ++ t := by simp
    rw [hassoc] at hg ⊢
    exact ih (l₁ ++ [x]) n m hg

/-- The in-memory index of a store: applications, tokens, databases and
documents (everything `load` reconstructs). -/
def memOf (s : HippoState) :
    List (String × Application) × List (String × Token) ×
    List (String × List (String × Database)) ×
    List (String × List (String × List (String × String))) :=
  (s.applications, s.tokens, s.databases, s.documents)

/-- A fresh `HippoDB` over the side-car files of a history state rebuilds
exactly that state's in-memory index. -/
theorem load_c8 (l : List AppDatum) (n : Nat) (hg : c8Good l n) :
    memOf (freshLoad (c8Disk l)) = memOf (c8State l n) := by
  have happsNodup : (l.map (fun x => genId x.appN)).Nodup := by
    have h2 : l.map (fun x => genId x.appN) = (l.map (fun x => x.appN)).map genId := by
      simp [List.map_map]
    rw [h2]
    exact (c8Good_appNs_nodup hg).map genId_inj
  have hfold := foldl_aset_append (fun a : Application => a.id) (fun a => a)
    (l.map (fun x => Application.mk (genId x.appN) x.name)) []
    (fun x _ => rfl) (by simpa [List.map_map] using happsNodup)
  have happ : load_applications_file ⟨[], [], [], [], c8Disk l, 0⟩
      = ⟨c8Apps l, [], [], [], c8Disk l, 0⟩ := by
    simp [load_applications_file, c8Disk, hfold, c8Apps, List.map_map]
  unfold freshLoad load
  rw [happ]
  have hkeys2 : (c8Apps l).map Prod.fst = l.map (fun x => genId x.appN) := by
    simp [c8Apps, List.map_map]
  have hmain := load_fold_c8 l [] n 0 (by simpa using hg)
  simp only [List.nil_append] at hmain
  simp only [hkeys2]
  rw [show c8Databases [] = [] from rfl, show c8Documents [] = [] from rfl] at hmain
  rw [hmain]
  simp [memOf, c8State]

/-- The application-level operations of the round-trip claim. -/
inductive AppOp where
  | create (name : String)
  | delete (id : String)

/-- Run one operation against the store, keeping the state whether the
call succeeds or raises (a delete of an unknown id mutates nothing). -/
def runOp (s : HippoState) : AppOp → HippoState
  | .create name => (create_application s name).2
  | .delete a => (delete_application s a).2

/-- Run a whole history of create/delete-application operations. -/
def runOps (s : HippoState) (ops : List AppOp) : HippoState :=
  ops.foldl runOp s

/-- Every create/delete history starting from a well-formed history state
lands in a well-formed history state. -/
theorem runOps_c8 (ops : List AppOp) :
    ∀ l n, c8Good l n →
      ∃ l' n', c8Good l' n' ∧ runOps (c8State l n) ops = c8State l' n' := by
  induction ops with
  | nil => exact fun l n h => ⟨l, n, h, rfl⟩
  | cons op t ih =>
    intro l n h
    cases op with
    | create nm =>
      rcases ih (l ++ [⟨n, nm, n + 1⟩]) (n + 2) (c8Good_append h nm) with ⟨l', n', h', heq⟩
      refine ⟨l', n', h', ?_⟩
      have hstep : runOps (c8State l n) (AppOp.create nm :: t)
          = runOps (c8State (l ++ [⟨n, nm, n + 1⟩]) (n + 2)) t := by
        simp [runOps, runOp, create_application_c8 l n nm h]
      rw [hstep, heq]
    | delete a =>
      rcases ih (c8Erase a l) n (c8Good_erase h a) with ⟨l', n', h', heq⟩
      refine ⟨l', n', h', ?_⟩
      have hstep : runOps (c8State l n) (AppOp.delete a :: t)
          = runOps (c8State (c8Erase a l) n) t := by
        simp [runOps, runOp, delete_application_c8 l n a h]
      rw [hstep, heq]

theorem initState_c8 : initState = c8State [] 0 := by decide

/-- C8: for every sequence of create-application and delete-application
operations starting from the fresh store, the final in-memory index equals
the index a fresh load from the persisted side-car files reconstructs. -/
theorem create_delete_roundtrip (ops : List AppOp) :
    memOf (freshLoad (runOps initState ops).disk) = memOf (runOps initState ops) := by
  have h0 : c8Good [] 0 := ⟨fun k hk => by simp [natsOf] at hk, by simp [natsOf]⟩
  rcases runOps_c8 ops [] 0 h0 with ⟨l, n, hg, heq⟩
  rw [initState_c8, heq]
  exact load_c8 l n hg

end Hippo





